import Mathlib

/-!
Verification model of the continuous speech-capture and chunking pipeline:
the speech recognition service (listening supervisor), the speech buffer
(sentence extraction, pause flush, chunk packing) and the segment
translation coordinator.  Strings are modelled as lists of characters and
the JavaScript string helpers used by the source (trim, whitespace-run
replacement, slice, lastIndexOf, template joins) are modelled explicitly.
-/

namespace SpeechPipeline

/-- Whitespace test modelling the JavaScript whitespace class used by
String.prototype.trim and the whitespace-collapsing regular expression. -/
def isWS (c : Char) : Bool :=
  c == ' ' || c == '\t' || c == '\n' || c == '\r' || c == '\x0B' || c == '\x0C' || c == ' '

/-- All non-whitespace characters of a string, in order. -/
def stripWS (l : List Char) : List Char :=
  l.filter (fun c => !(isWS c))

/-- JavaScript String.prototype.trim: remove leading and trailing whitespace. -/
def jsTrim (l : List Char) : List Char :=
  ((l.dropWhile isWS).reverse.dropWhile isWS).reverse

/-- JavaScript String.prototype.lastIndexOf for a single character:
the greatest index holding the character, and -1 when it is absent
(List.indexOf returns the length when the element is absent, which makes
this single formula cover both cases). -/
def jsLastIndexOf (l : List Char) (c : Char) : Int :=
  (l.length : Int) - 1 - ((l.reverse.indexOf c : Nat) : Int)

/-- Source `joinWithSpace`: trim both sides, drop an empty side, otherwise
join with a single space. -/
def joinWithSpace (a b : List Char) : List Char :=
  let left := jsTrim a
  let right := jsTrim b
  if left = [] then right
  else if right = [] then left
  else left ++ ' ' :: right

/-- Replacement of every maximal whitespace run by one space, modelling
the regular-expression replacement used by `extractCompletedSentences`.
The boolean flag records whether the previous character was whitespace. -/
def collapseGo : Bool → List Char → List Char
  | _, [] => []
  | prevWS, c :: rest =>
    if isWS c then
      if prevWS then collapseGo true rest else ' ' :: collapseGo true rest
    else c :: collapseGo false rest

/-- JavaScript `replace(whitespace-run, single space)`. -/
def collapseWS (l : List Char) : List Char := collapseGo false l

/-- Source `isSentenceTerminator`. -/
def isSentenceTerminator (c : Char) : Bool :=
  c == '.' || c == '!' || c == '?' || c == '。' || c == '！' || c == '？'

/-- The character scan inside `extractCompletedSentences`: accumulate
characters into the current sentence; a terminator closes the current
sentence (terminator included, trimmed, pushed when non-empty) and resets
the accumulator.  Returns the completed sentences and the final
accumulator. -/
def extractLoop : List Char → List Char → List (List Char) × List Char
  | [], current => ([], current)
  | c :: rest, current =>
    if isSentenceTerminator c then
      let s := jsTrim (current ++ [c])
      let r := extractLoop rest []
      (if s = [] then r.1 else s :: r.1, r.2)
    else
      extractLoop rest (current ++ [c])

structure ExtractResult where
  completed : List (List Char)
  remainder : List Char
deriving DecidableEq

/-- Source `extractCompletedSentences`: normalise whitespace, scan for
sentence terminators, return completed sentences and the trimmed
remainder. -/
def extractCompletedSentences (text : List Char) : ExtractResult :=
  let cleaned := jsTrim (collapseWS text)
  if cleaned = [] then ⟨[], []⟩
  else
    let r := extractLoop cleaned []
    ⟨r.1, jsTrim r.2⟩

/-- The cut position of one iteration of the source `chunkText` loop: cut
at the last space of the first maxChars characters when that space lies
past 60 percent of the budget (the comparison `lastSpace > maxChars * 0.6`
written over integers), else exactly at the budget. -/
def cutPos (maxChars : Nat) (remaining : List Char) : Nat :=
  let slice := remaining.take maxChars
  let lastSpace : Int := jsLastIndexOf slice ' '
  if lastSpace * 10 > (maxChars : Int) * 6 then lastSpace.toNat else maxChars

/-- The while-loop of source `chunkText`, with explicit fuel (one unit per
iteration; the cut consumes at least one character whenever maxChars is
positive, so fuel equal to the length of the input is enough, and the
fuel-exhausted fallback is reached only with an empty remainder).  When
the remaining text fits the budget it is emitted as the final chunk;
otherwise the next chunk is the trimmed text before the cut position and
the loop continues on the trimmed text after it. -/
def chunkTextLoop (maxChars : Nat) : Nat → List Char → List (List Char)
  | 0, remaining => if remaining = [] then [] else [remaining]
  | fuel + 1, remaining =>
    if remaining.length ≤ maxChars then
      if remaining = [] then [] else [remaining]
    else
      let cutAt := cutPos maxChars remaining
      let chunk := jsTrim (remaining.take cutAt)
      let rest := jsTrim (remaining.drop cutAt)
      (if chunk = [] then [] else [chunk]) ++ chunkTextLoop maxChars fuel rest

/-- Source `chunkText`: trim, then hard-split into chunks of at most
maxChars characters. -/
def chunkText (text : List Char) (maxChars : Nat) : List (List Char) :=
  chunkTextLoop maxChars (jsTrim text).length (jsTrim text)

/-- The loop of source `packIntoChunks`: greedily join trimmed parts with
a single space while the joined candidate fits the budget; on overflow,
flush the accumulator through `chunkText` and restart from the current
part; flush the final accumulator at the end (chunkText of an all
whitespace accumulator is empty, exactly as the source flush). -/
def packGo (maxChars : Nat) (buf : List Char) : List (List Char) → List (List Char)
  | [] => chunkText buf maxChars
  | raw :: rest =>
    let p := jsTrim raw
    if p = [] then packGo maxChars buf rest
    else if buf = [] then packGo maxChars p rest
    else
      let candidate := jsTrim (buf ++ ' ' :: p)
      if candidate.length ≤ maxChars then packGo maxChars candidate rest
      else chunkText buf maxChars ++ packGo maxChars p rest

/-- Source `packIntoChunks`. -/
def packIntoChunks (parts : List (List Char)) (maxChars : Nat) : List (List Char) :=
  packGo maxChars [] parts

/-- Source `truncateForQuery`: trim; if within budget return as is, else
cut the first maxChars characters back to the last space when that space
lies past 60 percent of the budget. -/
def truncateForQuery (text : List Char) (maxChars : Nat) : List Char :=
  let t := jsTrim text
  if t.length ≤ maxChars then t
  else
    let slice := t.take maxChars
    let lastSpace : Int := jsLastIndexOf slice ' '
    if lastSpace * 10 > (maxChars : Int) * 6 then jsTrim (slice.take lastSpace.toNat)
    else jsTrim slice

structure FlushResult where
  toTranslate : List (List Char)
  pieces : List (List Char)
  newBuffer : List Char
deriving DecidableEq

/-- The `toTranslate` local of source `flushSpeechBuffer`: the completed
sentences, plus (when forced) the trimmed remainder as one more chunk. -/
def flushToTranslate (speechBuffer : List Char) (force : Bool) : List (List Char) :=
  let extracted := extractCompletedSentences (jsTrim speechBuffer)
  let remainder := jsTrim extracted.remainder
  if force then extracted.completed ++ (if remainder = [] then [] else [remainder])
  else extracted.completed

/-- Source `flushSpeechBuffer`: trim the buffer; when empty leave it
untouched and dispatch nothing.  Otherwise extract completed sentences;
when forced, the trimmed remainder is one more chunk to translate and the
buffer is cleared entirely, otherwise the remainder stays in the buffer.
The chunks to translate are packed into pieces of at most 450 characters;
each piece is dispatched as one segment. -/
def flushSpeechBuffer (speechBuffer : List Char) (force : Bool) : FlushResult :=
  let input := jsTrim speechBuffer
  if input = [] then ⟨[], [], speechBuffer⟩
  else
    let toTranslate := flushToTranslate speechBuffer force
    let pieces := if toTranslate = [] then [] else packIntoChunks toTranslate 450
    ⟨toTranslate, pieces,
      if force then [] else jsTrim (extractCompletedSentences input).remainder⟩

/-- Events that touch the speech buffer: a finalized transcript fragment,
an interim transcript fragment (buffer untouched), the pause-flush timer
firing, and the stop-listening transition (both forced flushes). -/
inductive BufEvent
  | finalResult (text : List Char)
  | interimResult (text : List Char)
  | pauseFire
  | stopFlush

/-- One buffer event: the new buffer contents and the chunks dispatched to
`appendSegment` (which truncates each one at 450 characters before the
translate request).  A finalized fragment whose trimmed text is empty is
dropped before buffering, as in the transcript subscription. -/
def bufStep (buf : List Char) : BufEvent → List Char × List (List Char)
  | .finalResult t =>
    let finalText := jsTrim t
    if finalText = [] then (buf, [])
    else
      let r := flushSpeechBuffer (joinWithSpace buf finalText) false
      (r.newBuffer, r.pieces.map (fun p => truncateForQuery p 450))
  | .interimResult _ => (buf, [])
  | .pauseFire =>
    let r := flushSpeechBuffer buf true
    (r.newBuffer, r.pieces.map (fun p => truncateForQuery p 450))
  | .stopFlush =>
    let r := flushSpeechBuffer buf true
    (r.newBuffer, r.pieces.map (fun p => truncateForQuery p 450))

/-- Run a sequence of buffer events, collecting every dispatched chunk in
dispatch order. -/
def runBuf (buf : List Char) : List BufEvent → List Char × List (List Char)
  | [] => (buf, [])
  | e :: es =>
    let r := bufStep buf e
    let r2 := runBuf r.1 es
    (r2.1, r.2 ++ r2.2)

/-- The finalized fragment texts of an event sequence, in order. -/
def finalInputs : List BufEvent → List (List Char)
  | [] => []
  | .finalResult t :: es => t :: finalInputs es
  | .interimResult _ :: es => finalInputs es
  | .pauseFire :: es => finalInputs es
  | .stopFlush :: es => finalInputs es

/-! ## Segment translation coordinator -/

structure Segment where
  id : Nat
  original : List Char
  translated : List Char
  translating : Bool
deriving DecidableEq

structure Coord where
  segments : List Segment
  nextSegmentId : Nat
deriving DecidableEq

def Coord.init : Coord := ⟨[], 1⟩

/-- Source `updateSegment`: patch the first segment with the given id,
leaving every other segment and the order untouched; no-op when the id is
absent.  The two resolution call sites always patch both fields. -/
def updateSegment : List Segment → Nat → List Char → Bool → List Segment
  | [], _, _, _ => []
  | s :: rest, id, tr, fl =>
    if s.id = id then ⟨s.id, s.original, tr, fl⟩ :: rest
    else s :: updateSegment rest id tr fl

/-- Source `appendSegment`: truncate the chunk at 450 characters, allocate
the next monotonic id, append a placeholder segment marked translating;
with no source language selected the segment is resolved at once with an
empty translation and no request is dispatched. -/
def appendSegment (st : Coord) (hasSourceLang : Bool) (original : List Char) : Coord :=
  let safe := truncateForQuery original 450
  let id := st.nextSegmentId
  let pushed : Coord := ⟨st.segments ++ [⟨id, safe, [], true⟩], st.nextSegmentId + 1⟩
  if hasSourceLang then pushed
  else ⟨updateSegment pushed.segments id [] false, pushed.nextSegmentId⟩

/-- A translate response without a service-level error marker: store the
translated text on its segment and mark it not translating. -/
def resolveTranslation (st : Coord) (id : Nat) (translatedText : List Char) : Coord :=
  ⟨updateSegment st.segments id translatedText false, st.nextSegmentId⟩

/-- The pending placeholder shown while a segment is still translating. -/
def translationPlaceholder : List Char := "⏳ Translating…".toList

/-- The display text of one segment inside `rebuildDisplayStrings`. -/
def segmentDisplayText (s : Segment) : List Char :=
  if s.translating && (jsTrim s.translated == []) then translationPlaceholder
  else s.translated

/-- JavaScript Array.prototype.join with a newline separator. -/
def joinNL : List (List Char) → List Char
  | [] => []
  | [x] => x
  | x :: y :: rest => x ++ '\n' :: joinNL (y :: rest)

/-- The translated half of source `rebuildDisplayStrings` (speech mode):
every segment in creation order, then the interim translation when
non-empty, joined by newlines. -/
def rebuildTranslatedDisplay (st : Coord) (interimTranslated : List Char) : List Char :=
  joinNL (st.segments.map segmentDisplayText
    ++ (if interimTranslated = [] then [] else [interimTranslated]))

/-! ## Speech recognition service (listening supervisor) -/

structure Svc where
  recognitionAvailable : Bool
  shouldBeListening : Bool
  isManuallyStopped : Bool
  isRecognizing : Bool
  restartAttempts : Nat
  isMobileDevice : Bool
  lastNonCriticalError : Option String
  lang : String
  listeningFlag : Bool
  listeningTimeout : Option Nat
  restartTimeout : Option Nat
deriving DecidableEq

/-- Source `listeningDuration` (milliseconds). -/
def listeningDuration : Nat := 120000

def restartBase (mobile : Bool) : Nat := if mobile then 1500 else 300

def restartStep (mobile : Bool) : Nat := if mobile then 500 else 250

def restartCap (mobile : Bool) : Nat := if mobile then 5000 else 2000

/-- The delay computed by source `scheduleRestart`. -/
def restartDelay (st : Svc) : Nat :=
  let base := restartBase st.isMobileDevice
  let step := restartStep st.isMobileDevice
  let cap := restartCap st.isMobileDevice
  let extraNoSpeechPenalty :=
    if st.isMobileDevice ∧ st.lastNonCriticalError = some "no-speech" then 1000 else 0
  min (base + st.restartAttempts * step + extraNoSpeechPenalty) cap

/-- Source `scheduleRestart`: cancel any previous restart timer (modelled
by overwriting the single slot), record the computed delay, and increment
`restartAttempts` by exactly one. -/
def scheduleRestart (st : Svc) : Svc :=
  { st with restartTimeout := some (restartDelay st),
            restartAttempts := st.restartAttempts + 1 }

def clearRestartTimeout (st : Svc) : Svc := { st with restartTimeout := none }

def clearListeningTimeout (st : Svc) : Svc := { st with listeningTimeout := none }

/-- Source `startListeningTimeout`: arm the single inactivity timer with
the fixed 120 second duration. -/
def startListeningTimeout (st : Svc) : Svc :=
  { st with listeningTimeout := some listeningDuration }

/-- Engine onstart handler. -/
def recognitionOnStart (st : Svc) : Svc :=
  { st with isRecognizing := true, restartAttempts := 0, listeningFlag := true }

/-- Engine onend handler: terminal when manually stopped or no longer
wanted (emit not-listening, cancel the inactivity timer), otherwise
schedule a restart. -/
def recognitionOnEnd (st : Svc) : Svc :=
  let st1 := { st with isRecognizing := false }
  if st1.isManuallyStopped ∨ st1.shouldBeListening = false then
    clearListeningTimeout { st1 with listeningFlag := false }
  else scheduleRestart st1

/-- Source `stopListening`; the boolean is whether an engine stop was
requested (only when the engine exists and the listening subject is
currently true). -/
def stopListening (st : Svc) : Svc × Bool :=
  let st1 := clearListeningTimeout (clearRestartTimeout
    { st with isManuallyStopped := true, shouldBeListening := false })
  (st1, st1.recognitionAvailable && st1.listeningFlag)

/-- The critical error kinds of the onerror handler. -/
def criticalErrors : List String := ["not-allowed", "audio-capture", "service-not-allowed"]

/-- Engine onerror handler.  Returns the new state, the errors emitted on
the error stream, and whether an engine stop was requested.  A `no-speech`
error is recorded for backoff tuning and nothing else happens; critical
errors are emitted and stop listening; every other kind is emitted without
stopping. -/
def recognitionOnError (st : Svc) (err : String) : Svc × List String × Bool :=
  if err = "no-speech" then
    ({ st with lastNonCriticalError := some "no-speech" }, [], false)
  else
    let st1 := { st with lastNonCriticalError := if err = "" then none else some err }
    if err ∈ criticalErrors then
      let r := stopListening st1
      (r.1, [err], r.2)
    else (st1, [err], false)

/-- The component `handleError` switch, abstracted to whether a
user-visible message is set and whether the component listening signal is
forced false. -/
def handleErrorAction (err : String) : Bool × Bool :=
  if err = "no-speech" then (false, false)
  else if err = "audio-capture" then (true, true)
  else if err = "not-allowed" then (true, true)
  else if err = "network" then (true, true)
  else if err = "timeout" then (true, true)
  else if err = "aborted" then (false, false)
  else (false, false)

structure SpeechResult where
  transcript : List Char
  isFinal : Bool

/-- The result-aggregation loop of the onresult handler: finalized
transcripts are concatenated each followed by a space, interim transcripts
are concatenated directly. -/
def collectTranscripts (results : List SpeechResult) : List Char × List Char :=
  results.foldl
    (fun acc r =>
      if r.isFinal then (acc.1 ++ r.transcript ++ [' '], acc.2)
      else (acc.1, acc.2 ++ r.transcript))
    ([], [])

/-- Engine onresult handler: emit the trimmed finalized and interim
transcripts when non-empty, and re-arm the inactivity timer on any
transcript activity while listening is wanted. -/
def recognitionOnResult (st : Svc) (results : List SpeechResult) :
    Svc × List (List Char × Bool) :=
  let c := collectTranscripts results
  let finalTranscript := c.1
  let interimTranscript := c.2
  let emitted :=
    (if jsTrim finalTranscript = [] then [] else [(jsTrim finalTranscript, true)])
      ++ (if jsTrim interimTranscript = [] then [] else [(jsTrim interimTranscript, false)])
  let st1 :=
    if (jsTrim finalTranscript ≠ [] ∨ jsTrim interimTranscript ≠ []) ∧ st.shouldBeListening then
      startListeningTimeout st
    else st
  (st1, emitted)

/-- Expiry of the inactivity timer: mark manually stopped; when the engine
exists, request an engine stop and emit exactly one `timeout` error. -/
def listeningTimeoutFire (st : Svc) : Svc × List String × Bool :=
  let st1 := { st with isManuallyStopped := true, listeningTimeout := none }
  if st1.recognitionAvailable then (st1, ["timeout"], true) else (st1, [], false)

/-- Source `startRecognitionSafely`, with a successful engine start (the
synchronous-throw retry path is not exercised by any claim): no-op when
the engine is absent or already recognizing. -/
def startRecognitionSafely (st : Svc) : Svc × Bool :=
  if st.recognitionAvailable = false then (st, false)
  else if st.isRecognizing then (st, false)
  else (st, true)

/-- Source `startListening`.  Returns the new state, the errors emitted,
whether the guarded engine start was invoked, and whether the inactivity
timer was armed.  Note `shouldBeListening` is set before the permission
request; a refusal emits `not-allowed` and returns without starting the
engine or arming the timer.  The function never throws (it is total). -/
def startListening (st : Svc) (permissionGranted : Bool) (language : String) :
    Svc × List String × Bool × Bool :=
  if st.recognitionAvailable = false then
    (st, ["Speech recognition not available"], false, false)
  else
    let st1 := { st with shouldBeListening := true }
    if permissionGranted = false then (st1, ["not-allowed"], false, false)
    else
      let st2 := { st1 with isManuallyStopped := false, lang := language }
      let g := startRecognitionSafely st2
      (startListeningTimeout g.1, [], g.2, true)

def initSvc : Svc :=
  ⟨true, false, false, false, 0, false, none, "en-US", false, none, none⟩

/-! ## Timer handles

The four timer kinds (inactivity timeout, restart backoff, pause flush,
display-scroll coalescing) each live in one stored handle field; the
runtime's set of pending timers is modelled explicitly so that the
at-most-one-outstanding-per-kind property is a theorem about the
clear-before-arm call pattern of the source, not a modelling artefact. -/

inductive TimerKind
  | inactivity
  | restart
  | pause
  | scroll
deriving DecidableEq

structure TimerSys where
  pending : List (TimerKind × Nat)
  nextHandle : Nat
  listeningTimeoutHandle : Option Nat
  restartTimeoutHandle : Option Nat
  speechPauseTimerHandle : Option Nat
  scrollScheduleTimerHandle : Option Nat

def TimerSys.init : TimerSys := ⟨[], 0, none, none, none, none⟩

def handleOf (s : TimerSys) : TimerKind → Option Nat
  | .inactivity => s.listeningTimeoutHandle
  | .restart => s.restartTimeoutHandle
  | .pause => s.speechPauseTimerHandle
  | .scroll => s.scrollScheduleTimerHandle

def setHandle (s : TimerSys) (k : TimerKind) (v : Option Nat) : TimerSys :=
  match k with
  | .inactivity => { s with listeningTimeoutHandle := v }
  | .restart => { s with restartTimeoutHandle := v }
  | .pause => { s with speechPauseTimerHandle := v }
  | .scroll => { s with scrollScheduleTimerHandle := v }

/-- The clearXxx helpers of the source: when a handle is stored,
clearTimeout it (remove it from the pending set) and null the field. -/
def clearTimerKind (s : TimerSys) (k : TimerKind) : TimerSys :=
  match handleOf s k with
  | none => s
  | some h =>
    setHandle { s with pending := s.pending.filter (fun e => e.2 != h) } k none

/-- The arm helpers of the source (startListeningTimeout, scheduleRestart,
resetSpeechPauseTimer, scheduleAutoScrollToLatest): each first calls its
clear helper, then creates a fresh setTimeout handle and stores it. -/
def armTimerKind (s : TimerSys) (k : TimerKind) : TimerSys :=
  let s1 := clearTimerKind s k
  let h := s1.nextHandle
  setHandle { s1 with pending := s1.pending ++ [(k, h)], nextHandle := h + 1 } k (some h)

inductive TimerOp
  | startListeningTimeoutOp
  | clearListeningTimeoutOp
  | scheduleRestartOp
  | clearRestartTimeoutOp
  | resetSpeechPauseTimerOp
  | clearSpeechPauseTimerOp
  | scheduleAutoScrollOp
  | clearScrollScheduleTimerOp
  | timerFiredOp (h : Nat)

/-- Every timer-touching operation of the source, mapped to its effect on
handles; a firing timer leaves the pending set. -/
def timerStep (s : TimerSys) : TimerOp → TimerSys
  | .startListeningTimeoutOp => armTimerKind s .inactivity
  | .clearListeningTimeoutOp => clearTimerKind s .inactivity
  | .scheduleRestartOp => armTimerKind s .restart
  | .clearRestartTimeoutOp => clearTimerKind s .restart
  | .resetSpeechPauseTimerOp => armTimerKind s .pause
  | .clearSpeechPauseTimerOp => clearTimerKind s .pause
  | .scheduleAutoScrollOp => armTimerKind s .scroll
  | .clearScrollScheduleTimerOp => clearTimerKind s .scroll
  | .timerFiredOp h => { s with pending := s.pending.filter (fun e => e.2 != h) }

def runTimers (s : TimerSys) : List TimerOp → TimerSys
  | [] => s
  | op :: ops => runTimers (timerStep s op) ops

/-- Number of outstanding timers of one kind. -/
def pendingOfKind (s : TimerSys) (k : TimerKind) : Nat :=
  (s.pending.filter (fun e => e.1 == k)).length

/-- The timer-system invariant: every pending timer is the one stored in
its kind's field, handles are below the allocator, and handles are
pairwise distinct. -/
def TInv (s : TimerSys) : Prop :=
  (∀ e ∈ s.pending, handleOf s e.1 = some e.2)
    ∧ (∀ e ∈ s.pending, e.2 < s.nextHandle)
    ∧ (s.pending.map (fun e => e.2)).Nodup

/-! ## Basic whitespace and trim lemmas -/

lemma isWS_space : isWS ' ' = true := rfl

lemma length_dropWhile_le (p : Char → Bool) (l : List Char) :
    (l.dropWhile p).length ≤ l.length := by
  induction l with
  | nil => simp
  | cons c rest ih =>
    rw [List.dropWhile_cons]
    by_cases h : p c
    · rw [if_pos h]
      exact le_trans ih (by simp)
    · rw [if_neg h]

@[simp] lemma stripWS_nil : stripWS [] = [] := rfl

lemma stripWS_append (a b : List Char) :
    stripWS (a ++ b) = stripWS a ++ stripWS b :=
  List.filter_append a b

lemma stripWS_dropWhile (l : List Char) :
    stripWS (l.dropWhile isWS) = stripWS l := by
  induction l with
  | nil => rfl
  | cons c rest ih =>
    rw [List.dropWhile_cons]
    by_cases h : isWS c
    · rw [if_pos h, ih]
      simp [stripWS, List.filter_cons, h]
    · rw [if_neg h]

lemma stripWS_reverse (l : List Char) :
    stripWS l.reverse = (stripWS l).reverse :=
  List.filter_reverse _ l

lemma stripWS_jsTrim (l : List Char) : stripWS (jsTrim l) = stripWS l := by
  unfold jsTrim
  rw [stripWS_reverse, stripWS_dropWhile, stripWS_reverse, stripWS_dropWhile,
    List.reverse_reverse]

lemma stripWS_eq_nil_of_trim_nil {l : List Char} (h : jsTrim l = []) :
    stripWS l = [] := by
  rw [← stripWS_jsTrim, h]
  rfl

lemma jsTrim_length_le (l : List Char) : (jsTrim l).length ≤ l.length := by
  unfold jsTrim
  rw [List.length_reverse]
  refine le_trans (length_dropWhile_le _ _) ?_
  rw [List.length_reverse]
  exact length_dropWhile_le _ _

lemma mem_jsTrim {x : Char} {l : List Char} (h : x ∈ jsTrim l) : x ∈ l := by
  unfold jsTrim at h
  rw [List.mem_reverse] at h
  have h2 := (List.dropWhile_sublist isWS).subset h
  rw [List.mem_reverse] at h2
  exact (List.dropWhile_sublist isWS).subset h2

lemma dropWhile_head_false :
    ∀ (l : List Char) {c : Char} {t : List Char},
      l.dropWhile isWS = c :: t → isWS c = false := by
  intro l
  induction l with
  | nil => intro c t h; simp at h
  | cons a rest ih =>
    intro c t h
    rw [List.dropWhile_cons] at h
    by_cases ha : isWS a
    · rw [if_pos ha] at h
      exact ih h
    · rw [if_neg ha] at h
      injection h with h1 _
      subst h1
      simpa using ha

lemma dropWhile_cons_of_neg {c : Char} (h : isWS c = false) (t : List Char) :
    (c :: t).dropWhile isWS = c :: t := by
  rw [List.dropWhile_cons, if_neg]
  simp [h]

lemma dropWhile_append_singleton {c : Char} (h : isWS c = false) (l : List Char) :
    (l ++ [c]).dropWhile isWS = l.dropWhile isWS ++ [c] := by
  induction l with
  | nil => simp [dropWhile_cons_of_neg h]
  | cons a rest ih =>
    by_cases ha : isWS a
    · simp only [List.cons_append, List.dropWhile_cons, ha, if_true, ih]
    · simp only [List.cons_append, List.dropWhile_cons, ha, if_false]
      simp [ha]

lemma jsTrim_append_singleton {c : Char} (h : isWS c = false) (l : List Char) :
    jsTrim (l ++ [c]) = l.dropWhile isWS ++ [c] := by
  unfold jsTrim
  rw [dropWhile_append_singleton h l, List.reverse_append]
  simp only [List.reverse_cons, List.reverse_nil, List.nil_append, List.singleton_append]
  rw [dropWhile_cons_of_neg h, List.reverse_cons, List.reverse_reverse]

lemma append_singleton_inj {z w : List Char} {c e : Char}
    (h : z ++ [c] = w ++ [e]) : c = e := by
  have h2 := congrArg List.reverse h
  simp only [List.reverse_append, List.reverse_cons, List.reverse_nil, List.nil_append,
    List.singleton_append, List.cons.injEq] at h2
  exact h2.1

/-- Canonical form of a trimmed string: empty, a single non-whitespace
character, or a string whose first and last characters are both
non-whitespace. -/
lemma jsTrim_form (x : List Char) :
    jsTrim x = []
      ∨ (∃ c, jsTrim x = [c] ∧ isWS c = false)
      ∨ (∃ c0 m c1, jsTrim x = c0 :: (m ++ [c1]) ∧ isWS c0 = false ∧ isWS c1 = false) := by
  cases hu : x.dropWhile isWS with
  | nil =>
    left
    simp [jsTrim, hu]
  | cons c0 t0 =>
    have hc0 : isWS c0 = false := dropWhile_head_false x hu
    have hrev : (x.dropWhile isWS).reverse = t0.reverse ++ [c0] := by
      rw [hu, List.reverse_cons]
    have hv : (x.dropWhile isWS).reverse.dropWhile isWS
        = t0.reverse.dropWhile isWS ++ [c0] := by
      rw [hrev, dropWhile_append_singleton hc0]
    have hjs : jsTrim x = c0 :: (t0.reverse.dropWhile isWS).reverse := by
      unfold jsTrim
      rw [hv, List.reverse_append]
      simp
    cases hdw : t0.reverse.dropWhile isWS with
    | nil =>
      right; left
      refine ⟨c0, ?_, hc0⟩
      rw [hjs, hdw]
      rfl
    | cons c2 t2 =>
      have hc2 : isWS c2 = false := dropWhile_head_false t0.reverse hdw
      right; right
      refine ⟨c0, t2.reverse, c2, ?_, hc0, hc2⟩
      rw [hjs, hdw, List.reverse_cons]

lemma jsTrim_head_not_ws {x : List Char} {c : Char} {t : List Char}
    (h : jsTrim x = c :: t) : isWS c = false := by
  rcases jsTrim_form x with h0 | ⟨c1, h1, hw⟩ | ⟨c0, m, c1, h1, hw0, _⟩
  · rw [h0] at h; cases h
  · rw [h1] at h
    injection h with he _
    exact he ▸ hw
  · rw [h1] at h
    injection h with he _
    exact he ▸ hw0

lemma jsTrim_last_not_ws {x : List Char} {z : List Char} {c : Char}
    (h : jsTrim x = z ++ [c]) : isWS c = false := by
  rcases jsTrim_form x with h0 | ⟨c1, h1, hw⟩ | ⟨c0, m, c1, h1, _, hw1⟩
  · rw [h0] at h
    exact absurd h.symm (by simp)
  · rw [h1] at h
    have : c = c1 := append_singleton_inj (z := z) (w := []) (by simpa using h.symm)
    exact this ▸ hw
  · rw [h1] at h
    have hform : z ++ [c] = (c0 :: m) ++ [c1] := by
      rw [← h]
      simp
    exact (append_singleton_inj hform) ▸ hw1

lemma jsTrim_of_edges {l : List Char}
    (hh : ∀ c t, l = c :: t → isWS c = false)
    (hl : ∀ z c, l = z ++ [c] → isWS c = false) :
    jsTrim l = l := by
  cases l with
  | nil => rfl
  | cons a t =>
    have ha : isWS a = false := hh a t rfl
    rcases List.eq_nil_or_concat (a :: t) with h0 | ⟨L, b, hb⟩
    · cases h0
    · have hb' : a :: t = L ++ [b] := by rw [hb, List.concat_eq_append]
      have hbw : isWS b = false := hl L b hb'
      unfold jsTrim
      rw [dropWhile_cons_of_neg ha, hb', List.reverse_append]
      simp only [List.reverse_cons, List.reverse_nil, List.nil_append, List.singleton_append]
      rw [dropWhile_cons_of_neg hbw, List.reverse_cons, List.reverse_reverse]

lemma jsTrim_idem (l : List Char) : jsTrim (jsTrim l) = jsTrim l :=
  jsTrim_of_edges (fun _ _ h => jsTrim_head_not_ws h) (fun _ _ h => jsTrim_last_not_ws h)

lemma trimmed_head {l : List Char} (ht : jsTrim l = l) :
    ∀ c t, l = c :: t → isWS c = false :=
  fun _ _ h => jsTrim_head_not_ws (ht.trans h)

lemma trimmed_last {l : List Char} (ht : jsTrim l = l) :
    ∀ z c, l = z ++ [c] → isWS c = false :=
  fun _ _ h => jsTrim_last_not_ws (ht.trans h)

/-- Joining two trimmed non-empty strings with one space is already
trimmed. -/
lemma jsTrim_join_space {a b : List Char}
    (ha : jsTrim a = a) (hb : jsTrim b = b) (hna : a ≠ []) (hnb : b ≠ []) :
    jsTrim (a ++ ' ' :: b) = a ++ ' ' :: b := by
  apply jsTrim_of_edges
  · intro c t h
    cases a with
    | nil => exact absurd rfl hna
    | cons a0 t0 =>
      have h2 : a0 :: (t0 ++ ' ' :: b) = c :: t := by simpa using h
      injection h2 with he _
      exact he ▸ trimmed_head ha a0 t0 rfl
  · intro z c h
    rcases List.eq_nil_or_concat b with h0 | ⟨L, e, he⟩
    · exact absurd h0 hnb
    · have heb : b = L ++ [e] := by rw [he, List.concat_eq_append]
      have hee : isWS e = false := trimmed_last hb L e heb
      have hform : z ++ [c] = (a ++ ' ' :: L) ++ [e] := by
        rw [← h, heb]
        simp
      exact (append_singleton_inj hform) ▸ hee

lemma stripWS_cons_ws {c : Char} (h : isWS c = true) (l : List Char) :
    stripWS (c :: l) = stripWS l := by
  simp [stripWS, List.filter_cons, h]

lemma stripWS_cons_not {c : Char} (h : isWS c = false) (l : List Char) :
    stripWS (c :: l) = c :: stripWS l := by
  simp [stripWS, List.filter_cons, h]

lemma stripWS_collapseGo : ∀ (l : List Char) (b : Bool),
    stripWS (collapseGo b l) = stripWS l := by
  intro l
  induction l with
  | nil => intro b; rfl
  | cons c rest ih =>
    intro b
    by_cases h : isWS c
    · cases b
      · rw [show collapseGo false (c :: rest) = ' ' :: collapseGo true rest from by
          simp [collapseGo, h]]
        rw [stripWS_cons_ws isWS_space, ih, stripWS_cons_ws h]
      · rw [show collapseGo true (c :: rest) = collapseGo true rest from by
          simp [collapseGo, h]]
        rw [ih, stripWS_cons_ws h]
    · have h' : isWS c = false := by simpa using h
      rw [show collapseGo b (c :: rest) = c :: collapseGo false rest from by
        simp [collapseGo, h]]
      rw [stripWS_cons_not h', ih, stripWS_cons_not h']

lemma stripWS_collapseWS (l : List Char) : stripWS (collapseWS l) = stripWS l :=
  stripWS_collapseGo l false

lemma map_id_of_mem {α : Type} (f : α → α) :
    ∀ (l : List α), (∀ a ∈ l, f a = a) → l.map f = l := by
  intro l
  induction l with
  | nil => intro _; rfl
  | cons a rest ih =>
    intro h
    rw [List.map_cons, h a (by simp), ih (fun b hb => h b (by simp [hb]))]

lemma terminator_not_ws {c : Char} (h : isSentenceTerminator c = true) :
    isWS c = false := by
  simp only [isSentenceTerminator, Bool.or_eq_true, beq_iff_eq] at h
  rcases h with ((((h | h) | h) | h) | h) | h <;> subst h <;> decide

/-! ## Sentence extraction lemmas -/

lemma extractLoop_strip : ∀ (l cur : List Char),
    stripWS ((extractLoop l cur).1.flatten ++ (extractLoop l cur).2)
      = stripWS (cur ++ l) := by
  intro l
  induction l with
  | nil =>
    intro cur
    simp [extractLoop]
  | cons c rest ih =>
    intro cur
    have hsplit : stripWS (cur ++ (c :: rest)) = stripWS (cur ++ [c]) ++ stripWS rest := by
      rw [show cur ++ (c :: rest) = (cur ++ [c]) ++ rest from by simp, stripWS_append]
    by_cases h : isSentenceTerminator c
    · have hih := ih []
      simp only [List.nil_append] at hih
      by_cases hs0 : jsTrim (cur ++ [c]) = []
      · have he : extractLoop (c :: rest) cur
            = ((extractLoop rest []).1, (extractLoop rest []).2) := by
          simp [extractLoop, h, hs0]
        rw [he]
        have h2 : stripWS (cur ++ [c]) = [] := by
          rw [← stripWS_jsTrim, hs0]
          rfl
        rw [hsplit, h2, List.nil_append]
        exact hih
      · have he : extractLoop (c :: rest) cur
            = (jsTrim (cur ++ [c]) :: (extractLoop rest []).1, (extractLoop rest []).2) := by
          simp [extractLoop, h, hs0]
        rw [he]
        rw [hsplit]
        have hassoc : (jsTrim (cur ++ [c]) :: (extractLoop rest []).1).flatten
              ++ (extractLoop rest []).2
            = jsTrim (cur ++ [c])
              ++ ((extractLoop rest []).1.flatten ++ (extractLoop rest []).2) := by
          simp
        rw [hassoc, stripWS_append, stripWS_jsTrim, hih]
    · have he : extractLoop (c :: rest) cur = extractLoop rest (cur ++ [c]) := by
        simp [extractLoop, h]
      rw [he, ih (cur ++ [c])]
      simp [List.append_assoc]

lemma extractLoop_completed : ∀ (l cur s : List Char),
    s ∈ (extractLoop l cur).1 →
    ∃ z c, s = z ++ [c] ∧ isSentenceTerminator c = true := by
  intro l
  induction l with
  | nil =>
    intro cur s h
    simp [extractLoop] at h
  | cons c rest ih =>
    intro cur s hmem
    by_cases h : isSentenceTerminator c
    · by_cases hs0 : jsTrim (cur ++ [c]) = []
      · have he : (extractLoop (c :: rest) cur).1 = (extractLoop rest []).1 := by
          simp [extractLoop, h, hs0]
        rw [he] at hmem
        exact ih [] s hmem
      · have he : (extractLoop (c :: rest) cur).1
            = jsTrim (cur ++ [c]) :: (extractLoop rest []).1 := by
          simp [extractLoop, h, hs0]
        rw [he] at hmem
        rcases List.mem_cons.mp hmem with heq | hmem2
        · subst heq
          exact ⟨cur.dropWhile isWS, c,
            jsTrim_append_singleton (terminator_not_ws h) cur, h⟩
        · exact ih [] s hmem2
    · have he : extractLoop (c :: rest) cur = extractLoop rest (cur ++ [c]) := by
        simp [extractLoop, h]
      rw [he] at hmem
      exact ih (cur ++ [c]) s hmem

lemma extractLoop_remainder : ∀ (l cur : List Char),
    (∀ x ∈ cur, isSentenceTerminator x = false) →
    ∀ x ∈ (extractLoop l cur).2, isSentenceTerminator x = false := by
  intro l
  induction l with
  | nil =>
    intro cur hcur x hx
    exact hcur x (by simpa [extractLoop] using hx)
  | cons c rest ih =>
    intro cur hcur x hx
    by_cases h : isSentenceTerminator c
    · have he : (extractLoop (c :: rest) cur).2 = (extractLoop rest []).2 := by
        simp [extractLoop, h]
      rw [he] at hx
      exact ih [] (by simp) x hx
    · have he : extractLoop (c :: rest) cur = extractLoop rest (cur ++ [c]) := by
        simp [extractLoop, h]
      rw [he] at hx
      refine ih (cur ++ [c]) ?_ x hx
      intro y hy
      rcases List.mem_append.mp hy with hy1 | hy2
      · exact hcur y hy1
      · have hyc : y = c := by simpa using hy2
        subst hyc
        simpa using h

lemma extract_strip (t : List Char) :
    stripWS ((extractCompletedSentences t).completed.flatten
        ++ (extractCompletedSentences t).remainder) = stripWS t := by
  have hclean : stripWS (jsTrim (collapseWS t)) = stripWS t := by
    rw [stripWS_jsTrim, stripWS_collapseWS]
  unfold extractCompletedSentences
  by_cases h0 : jsTrim (collapseWS t) = []
  · rw [if_pos h0]
    rw [h0] at hclean
    simpa using hclean
  · rw [if_neg h0]
    simp only
    have h1 := extractLoop_strip (jsTrim (collapseWS t)) []
    simp only [List.nil_append] at h1
    rw [stripWS_append, stripWS_jsTrim, ← stripWS_append, h1, hclean]

lemma extract_completed_shape (t : List Char) :
    ∀ s ∈ (extractCompletedSentences t).completed,
      ∃ z c, s = z ++ [c] ∧ isSentenceTerminator c = true := by
  unfold extractCompletedSentences
  by_cases h0 : jsTrim (collapseWS t) = []
  · rw [if_pos h0]
    intro s hs
    simp at hs
  · rw [if_neg h0]
    intro s hs
    exact extractLoop_completed _ [] s hs

lemma extract_remainder_no_term (t : List Char) :
    ∀ x ∈ (extractCompletedSentences t).remainder,
      isSentenceTerminator x = false := by
  unfold extractCompletedSentences
  by_cases h0 : jsTrim (collapseWS t) = []
  · rw [if_pos h0]
    intro x hx
    simp at hx
  · rw [if_neg h0]
    intro x hx
    exact extractLoop_remainder _ [] (by simp) x (mem_jsTrim hx)

lemma stripWS_joinWithSpace (a b : List Char) :
    stripWS (joinWithSpace a b) = stripWS a ++ stripWS b := by
  unfold joinWithSpace
  by_cases hl : jsTrim a = []
  · rw [if_pos hl, stripWS_jsTrim, stripWS_eq_nil_of_trim_nil hl]
    rfl
  · rw [if_neg hl]
    by_cases hr : jsTrim b = []
    · rw [if_pos hr, stripWS_jsTrim, stripWS_eq_nil_of_trim_nil hr]
      simp
    · rw [if_neg hr, stripWS_append]
      have hsp : stripWS (' ' :: jsTrim b) = stripWS (jsTrim b) := by
        simp [stripWS, List.filter_cons, isWS_space]
      rw [hsp, stripWS_jsTrim, stripWS_jsTrim]

/-! ## Chunking and packing lemmas -/

lemma chunkTextLoop_succ {maxChars fuel : Nat} {r : List Char}
    (h : ¬ r.length ≤ maxChars) :
    chunkTextLoop maxChars (fuel + 1) r
      = (if jsTrim (r.take (cutPos maxChars r)) = [] then []
         else [jsTrim (r.take (cutPos maxChars r))])
        ++ chunkTextLoop maxChars fuel (jsTrim (r.drop (cutPos maxChars r))) := by
  simp [chunkTextLoop, h]

lemma chunkTextLoop_strip (maxChars : Nat) :
    ∀ (fuel : Nat) (r : List Char),
      stripWS ((chunkTextLoop maxChars fuel r).flatten) = stripWS r := by
  intro fuel
  induction fuel with
  | zero =>
    intro r
    by_cases h : r = [] <;> simp [chunkTextLoop, h]
  | succ fuel ih =>
    intro r
    by_cases hle : r.length ≤ maxChars
    · by_cases h : r = [] <;> simp [chunkTextLoop, hle, h]
    · rw [chunkTextLoop_succ hle, List.flatten_append, stripWS_append]
      have h1 : stripWS ((if jsTrim (r.take (cutPos maxChars r)) = [] then []
            else [jsTrim (r.take (cutPos maxChars r))]) : List (List Char)).flatten
          = stripWS (r.take (cutPos maxChars r)) := by
        by_cases h2 : jsTrim (r.take (cutPos maxChars r)) = []
        · rw [if_pos h2]
          have h3 : stripWS (r.take (cutPos maxChars r)) = [] := by
            rw [← stripWS_jsTrim, h2]
            rfl
          rw [h3]
          rfl
        · rw [if_neg h2]
          simp only [List.flatten_cons, List.flatten_nil, List.append_nil]
          exact stripWS_jsTrim _
      rw [h1, ih, stripWS_jsTrim, ← stripWS_append, List.take_append_drop]

lemma jsLastIndexOf_le (l : List Char) (c : Char) :
    jsLastIndexOf l c ≤ (l.length : Int) - 1 := by
  unfold jsLastIndexOf
  have h : (0 : Int) ≤ ((l.reverse.indexOf c : Nat) : Int) := Int.ofNat_nonneg _
  omega

lemma cutPos_pos (r : List Char) : 1 ≤ cutPos 450 r := by
  unfold cutPos
  by_cases h : jsLastIndexOf (r.take 450) ' ' * 10 > ((450 : Nat) : Int) * 6
  · rw [if_pos h]
    omega
  · rw [if_neg h]
    omega

lemma cutPos_le (r : List Char) : cutPos 450 r ≤ 450 := by
  unfold cutPos
  by_cases h : jsLastIndexOf (r.take 450) ' ' * 10 > ((450 : Nat) : Int) * 6
  · rw [if_pos h]
    have hub := jsLastIndexOf_le (r.take 450) ' '
    have hlen : ((r.take 450).length : Int) ≤ 450 := by
      have := List.length_take_le 450 r
      omega
    omega
  · rw [if_neg h]

lemma chunkTextLoop_pieces : ∀ (fuel : Nat) (r : List Char),
    r.length ≤ fuel → jsTrim r = r →
    ∀ p ∈ chunkTextLoop 450 fuel r, p.length ≤ 450 ∧ jsTrim p = p := by
  intro fuel
  induction fuel with
  | zero =>
    intro r hlen _ p hp
    have h0 : r = [] := List.length_eq_zero.mp (Nat.le_zero.mp hlen)
    subst h0
    simp [chunkTextLoop] at hp
  | succ fuel ih =>
    intro r hlen htrim p hp
    by_cases hle : r.length ≤ 450
    · by_cases h0 : r = []
      · subst h0
        simp [chunkTextLoop] at hp
      · have he : chunkTextLoop 450 (fuel + 1) r = [r] := by
          simp [chunkTextLoop, hle, h0]
        rw [he] at hp
        have hpr : p = r := by simpa using hp
        subst hpr
        exact ⟨hle, htrim⟩
    · rw [chunkTextLoop_succ hle] at hp
      rcases List.mem_append.mp hp with hp1 | hp2
      · by_cases h2 : jsTrim (r.take (cutPos 450 r)) = []
        · rw [if_pos h2] at hp1
          simp at hp1
        · rw [if_neg h2] at hp1
          have hpe : p = jsTrim (r.take (cutPos 450 r)) := by simpa using hp1
          subst hpe
          refine ⟨?_, jsTrim_idem _⟩
          calc (jsTrim (r.take (cutPos 450 r))).length
              ≤ (r.take (cutPos 450 r)).length := jsTrim_length_le _
            _ ≤ cutPos 450 r := List.length_take_le _ _
            _ ≤ 450 := cutPos_le r
      · refine ih (jsTrim (r.drop (cutPos 450 r))) ?_ (jsTrim_idem _) p hp2
        have hd : (jsTrim (r.drop (cutPos 450 r))).length ≤ r.length - cutPos 450 r := by
          calc (jsTrim (r.drop (cutPos 450 r))).length
              ≤ (r.drop (cutPos 450 r)).length := jsTrim_length_le _
            _ = r.length - cutPos 450 r := List.length_drop _ _
        have hc := cutPos_pos r
        omega

lemma chunkText_small {t : List Char} {maxChars : Nat}
    (ht : jsTrim t = t) (hn : t ≠ []) (hl : t.length ≤ maxChars) :
    chunkText t maxChars = [t] := by
  unfold chunkText
  rw [ht]
  have h0 : t.length ≠ 0 := by
    simpa using fun h => hn (List.length_eq_zero.mp h)
  cases hc : t.length with
  | zero => exact absurd hc h0
  | succ n =>
    simp [chunkTextLoop, hl, hn]

lemma chunkText_strip (t : List Char) (maxChars : Nat) :
    stripWS ((chunkText t maxChars).flatten) = stripWS t := by
  unfold chunkText
  rw [chunkTextLoop_strip, stripWS_jsTrim]

lemma chunkText_pieces {t : List Char} :
    ∀ p ∈ chunkText t 450, p.length ≤ 450 ∧ jsTrim p = p := by
  intro p hp
  unfold chunkText at hp
  exact chunkTextLoop_pieces (jsTrim t).length (jsTrim t) le_rfl (jsTrim_idem t) p hp

lemma packGo_strip (maxChars : Nat) : ∀ (parts : List (List Char)) (buf : List Char),
    stripWS ((packGo maxChars buf parts).flatten)
      = stripWS buf ++ stripWS parts.flatten := by
  intro parts
  induction parts with
  | nil =>
    intro buf
    rw [show packGo maxChars buf [] = chunkText buf maxChars from rfl, chunkText_strip]
    simp
  | cons raw rest ih =>
    intro buf
    by_cases h1 : jsTrim raw = []
    · have he : packGo maxChars buf (raw :: rest) = packGo maxChars buf rest := by
        simp [packGo, h1]
      rw [he, ih]
      have h2 : stripWS raw = [] := stripWS_eq_nil_of_trim_nil h1
      simp [List.flatten_cons, stripWS_append, h2]
    · by_cases h2 : buf = []
      · have he : packGo maxChars buf (raw :: rest) = packGo maxChars (jsTrim raw) rest := by
          simp [packGo, h1, h2]
        rw [he, ih, h2]
        simp [List.flatten_cons, stripWS_append, stripWS_jsTrim, List.append_assoc]
      · by_cases h3 : (jsTrim (buf ++ ' ' :: jsTrim raw)).length ≤ maxChars
        · have he : packGo maxChars buf (raw :: rest)
              = packGo maxChars (jsTrim (buf ++ ' ' :: jsTrim raw)) rest := by
            simp [packGo, h1, h2, h3]
          rw [he, ih]
          have hc : stripWS (jsTrim (buf ++ ' ' :: jsTrim raw))
              = stripWS buf ++ stripWS raw := by
            rw [stripWS_jsTrim, stripWS_append, stripWS_cons_ws isWS_space, stripWS_jsTrim]
          rw [hc]
          simp [List.flatten_cons, stripWS_append, List.append_assoc]
        · have he : packGo maxChars buf (raw :: rest)
              = chunkText buf maxChars ++ packGo maxChars (jsTrim raw) rest := by
            simp [packGo, h1, h2, h3]
          rw [he, List.flatten_append, stripWS_append, chunkText_strip, ih]
          simp [List.flatten_cons, stripWS_append, stripWS_jsTrim, List.append_assoc]

lemma packGo_pieces : ∀ (parts : List (List Char)) (buf : List Char),
    jsTrim buf = buf →
    ∀ q ∈ packGo 450 buf parts, q.length ≤ 450 ∧ jsTrim q = q := by
  intro parts
  induction parts with
  | nil =>
    intro buf _ q hq
    exact chunkText_pieces q hq
  | cons raw rest ih =>
    intro buf htrim q hq
    by_cases h1 : jsTrim raw = []
    · rw [show packGo 450 buf (raw :: rest) = packGo 450 buf rest from by
        simp [packGo, h1]] at hq
      exact ih buf htrim q hq
    · by_cases h2 : buf = []
      · rw [show packGo 450 buf (raw :: rest) = packGo 450 (jsTrim raw) rest from by
          simp [packGo, h1, h2]] at hq
        exact ih (jsTrim raw) (jsTrim_idem raw) q hq
      · by_cases h3 : (jsTrim (buf ++ ' ' :: jsTrim raw)).length ≤ 450
        · rw [show packGo 450 buf (raw :: rest)
              = packGo 450 (jsTrim (buf ++ ' ' :: jsTrim raw)) rest from by
            simp [packGo, h1, h2, h3]] at hq
          exact ih _ (jsTrim_idem _) q hq
        · rw [show packGo 450 buf (raw :: rest)
              = chunkText buf 450 ++ packGo 450 (jsTrim raw) rest from by
            simp [packGo, h1, h2, h3]] at hq
          rcases List.mem_append.mp hq with hq1 | hq2
          · exact chunkText_pieces q hq1
          · exact ih (jsTrim raw) (jsTrim_idem raw) q hq2

lemma packIntoChunks_strip (parts : List (List Char)) (maxChars : Nat) :
    stripWS ((packIntoChunks parts maxChars).flatten) = stripWS parts.flatten := by
  unfold packIntoChunks
  rw [packGo_strip]
  rfl

lemma packIntoChunks_pieces {parts : List (List Char)} :
    ∀ q ∈ packIntoChunks parts 450, q.length ≤ 450 ∧ jsTrim q = q := by
  intro q hq
  exact packGo_pieces parts [] rfl q hq

lemma truncate_id {t : List Char} (ht : jsTrim t = t) (hl : t.length ≤ 450) :
    truncateForQuery t 450 = t := by
  unfold truncateForQuery
  simp only [ht]
  rw [if_pos hl]

/-- Packing exactly two trimmed chunks that each fit the budget: one
combined chunk when the joined length fits, two separate chunks
otherwise. -/
lemma pack_pair {a b : List Char} (ha : jsTrim a = a) (hb : jsTrim b = b)
    (hna : a ≠ []) (hnb : b ≠ []) (hla : a.length ≤ 450) (hlb : b.length ≤ 450) :
    packIntoChunks [a, b] 450
      = if a.length + 1 + b.length ≤ 450 then [a ++ ' ' :: b] else [a, b] := by
  have hcand : jsTrim (a ++ ' ' :: b) = a ++ ' ' :: b := jsTrim_join_space ha hb hna hnb
  have hlen : (a ++ ' ' :: b).length = a.length + 1 + b.length := by
    simp
    omega
  have hstep1 : packIntoChunks [a, b] 450 = packGo 450 a [b] := by
    simp [packIntoChunks, packGo, ha, hna]
  rw [hstep1]
  have hle' : (jsTrim (a ++ ' ' :: b)).length ≤ 450 ↔ a.length + 1 + b.length ≤ 450 := by
    rw [hcand, hlen]
  simp only [packGo]
  rw [hb, if_neg hnb, if_neg hna]
  by_cases h3 : a.length + 1 + b.length ≤ 450
  · rw [if_pos (hle'.mpr h3), if_pos h3, hcand]
    exact chunkText_small hcand (by simp) (by rw [hlen]; exact h3)
  · rw [if_neg (fun hc => h3 (hle'.mp hc)), if_neg h3]
    rw [chunkText_small ha hna hla, chunkText_small hb hnb hlb]
    rfl

/-! ## Flush and buffer-run conservation -/

lemma flush_eq_of_trim_nil {buf : List Char} {force : Bool} (h : jsTrim buf = []) :
    flushSpeechBuffer buf force = ⟨[], [], buf⟩ := by
  simp [flushSpeechBuffer, h]

lemma flush_eq_of_trim_ne {buf : List Char} {force : Bool} (h : ¬ jsTrim buf = []) :
    flushSpeechBuffer buf force
      = ⟨flushToTranslate buf force,
         if flushToTranslate buf force = [] then []
         else packIntoChunks (flushToTranslate buf force) 450,
         if force then [] else jsTrim (extractCompletedSentences (jsTrim buf)).remainder⟩ := by
  simp [flushSpeechBuffer, h]

lemma flushToTranslate_strip_force (buf : List Char) :
    stripWS (flushToTranslate buf true).flatten = stripWS buf := by
  have hx := extract_strip (jsTrim buf)
  rw [stripWS_jsTrim] at hx
  have h1 : flushToTranslate buf true
      = (extractCompletedSentences (jsTrim buf)).completed
        ++ (if jsTrim (extractCompletedSentences (jsTrim buf)).remainder = [] then []
            else [jsTrim (extractCompletedSentences (jsTrim buf)).remainder]) := by
    simp [flushToTranslate]
  rw [h1]
  by_cases hr : jsTrim (extractCompletedSentences (jsTrim buf)).remainder = []
  · rw [if_pos hr, List.append_nil]
    rw [← hx, stripWS_append]
    have h2 : stripWS (extractCompletedSentences (jsTrim buf)).remainder = [] := by
      rw [← stripWS_jsTrim, hr]
      rfl
    rw [h2, List.append_nil]
  · rw [if_neg hr, List.flatten_append]
    simp only [List.flatten_cons, List.flatten_nil, List.append_nil]
    rw [stripWS_append, stripWS_jsTrim, ← stripWS_append, hx]

lemma flushToTranslate_strip_nonforce (buf : List Char) :
    stripWS (flushToTranslate buf false).flatten
        ++ stripWS (jsTrim (extractCompletedSentences (jsTrim buf)).remainder)
      = stripWS buf := by
  have hx := extract_strip (jsTrim buf)
  rw [stripWS_jsTrim] at hx
  have h1 : flushToTranslate buf false
      = (extractCompletedSentences (jsTrim buf)).completed := by
    simp [flushToTranslate]
  rw [h1, stripWS_jsTrim, ← stripWS_append, hx]

lemma flush_map_truncate {buf : List Char} {force : Bool} :
    ((flushSpeechBuffer buf force).pieces).map (fun p => truncateForQuery p 450)
      = (flushSpeechBuffer buf force).pieces := by
  apply map_id_of_mem
  intro q hq
  by_cases h0 : jsTrim buf = []
  · rw [flush_eq_of_trim_nil h0] at hq
    simp at hq
  · rw [flush_eq_of_trim_ne h0] at hq
    simp only at hq
    by_cases hT : flushToTranslate buf force = []
    · rw [if_pos hT] at hq
      simp at hq
    · rw [if_neg hT] at hq
      have h := packIntoChunks_pieces q hq
      exact truncate_id h.2 h.1

lemma flush_strip (buf : List Char) (force : Bool) :
    stripWS (((flushSpeechBuffer buf force).pieces.map
        (fun p => truncateForQuery p 450)).flatten)
      ++ stripWS ((flushSpeechBuffer buf force).newBuffer)
      = stripWS buf := by
  rw [flush_map_truncate]
  by_cases h0 : jsTrim buf = []
  · rw [flush_eq_of_trim_nil h0]
    simp
  · rw [flush_eq_of_trim_ne h0]
    simp only
    by_cases hT : flushToTranslate buf force = []
    · rw [if_pos hT]
      simp only [List.flatten_nil, stripWS_nil, List.nil_append]
      cases force
      · have h := flushToTranslate_strip_nonforce buf
        rw [hT] at h
        simpa using h
      · have h := flushToTranslate_strip_force buf
        rw [hT] at h
        simpa using h
    · rw [if_neg hT, packIntoChunks_strip]
      cases force
      · simpa using flushToTranslate_strip_nonforce buf
      · simpa using flushToTranslate_strip_force buf

lemma flush_newBuffer_strip (buf : List Char) :
    stripWS ((flushSpeechBuffer buf true).newBuffer) = [] := by
  by_cases h0 : jsTrim buf = []
  · rw [flush_eq_of_trim_nil h0]
    exact stripWS_eq_nil_of_trim_nil h0
  · rw [flush_eq_of_trim_ne h0]
    simp

lemma bufStep_strip (buf : List Char) (e : BufEvent) :
    stripWS ((bufStep buf e).2.flatten) ++ stripWS (bufStep buf e).1
      = stripWS buf ++ stripWS (finalInputs [e]).flatten := by
  cases e with
  | finalResult t =>
    by_cases ht : jsTrim t = []
    · have hts : stripWS t = [] := stripWS_eq_nil_of_trim_nil ht
      simp [bufStep, ht, finalInputs, stripWS_append, hts]
    · have he : bufStep buf (.finalResult t)
          = ((flushSpeechBuffer (joinWithSpace buf (jsTrim t)) false).newBuffer,
             (flushSpeechBuffer (joinWithSpace buf (jsTrim t)) false).pieces.map
               (fun p => truncateForQuery p 450)) := by
        simp [bufStep, ht]
      rw [he]
      have h1 := flush_strip (joinWithSpace buf (jsTrim t)) false
      simp only at h1 ⊢
      rw [h1, stripWS_joinWithSpace, stripWS_jsTrim]
      simp [finalInputs, stripWS_append]
  | interimResult t => simp [bufStep, finalInputs]
  | pauseFire =>
    have h1 := flush_strip buf true
    simp only [bufStep]
    rw [h1]
    simp [finalInputs]
  | stopFlush =>
    have h1 := flush_strip buf true
    simp only [bufStep]
    rw [h1]
    simp [finalInputs]

lemma finalInputs_cons_strip (e : BufEvent) (es : List BufEvent) :
    stripWS (finalInputs (e :: es)).flatten
      = stripWS (finalInputs [e]).flatten ++ stripWS (finalInputs es).flatten := by
  cases e <;> simp [finalInputs, stripWS_append]

lemma runBuf_strip : ∀ (evts : List BufEvent) (buf : List Char),
    stripWS ((runBuf buf evts).2.flatten) ++ stripWS (runBuf buf evts).1
      = stripWS buf ++ stripWS (finalInputs evts).flatten := by
  intro evts
  induction evts with
  | nil => intro buf; simp [runBuf, finalInputs]
  | cons e es ih =>
    intro buf
    have he : runBuf buf (e :: es)
        = ((runBuf (bufStep buf e).1 es).1,
           (bufStep buf e).2 ++ (runBuf (bufStep buf e).1 es).2) := rfl
    rw [he]
    simp only [List.flatten_append, stripWS_append, List.append_assoc]
    rw [ih (bufStep buf e).1]
    rw [← List.append_assoc, bufStep_strip buf e, finalInputs_cons_strip,
      List.append_assoc]
    cases e <;> simp [finalInputs, stripWS_append]

lemma runBuf_append : ∀ (es1 es2 : List BufEvent) (buf : List Char),
    runBuf buf (es1 ++ es2)
      = ((runBuf (runBuf buf es1).1 es2).1,
         (runBuf buf es1).2 ++ (runBuf (runBuf buf es1).1 es2).2) := by
  intro es1
  induction es1 with
  | nil => intro es2 buf; simp [runBuf]
  | cons e es ih =>
    intro es2 buf
    have he : runBuf buf ((e :: es) ++ es2)
        = ((runBuf (bufStep buf e).1 (es ++ es2)).1,
           (bufStep buf e).2 ++ (runBuf (bufStep buf e).1 (es ++ es2)).2) := rfl
    have he2 : runBuf buf (e :: es)
        = ((runBuf (bufStep buf e).1 es).1,
           (bufStep buf e).2 ++ (runBuf (bufStep buf e).1 es).2) := rfl
    rw [he, ih es2 (bufStep buf e).1, he2]
    simp [List.append_assoc]

lemma finalInputs_append (es1 es2 : List BufEvent) :
    finalInputs (es1 ++ es2) = finalInputs es1 ++ finalInputs es2 := by
  induction es1 with
  | nil => simp [finalInputs]
  | cons e es ih => cases e <;> simp [finalInputs, ih]

/-! ## Segment coordinator lemmas -/

lemma updateSegment_map_id_orig : ∀ (segs : List Segment) (id : Nat) (tr : List Char) (fl : Bool),
    (updateSegment segs id tr fl).map (fun s => (s.id, s.original))
      = segs.map (fun s => (s.id, s.original)) := by
  intro segs
  induction segs with
  | nil => intros; rfl
  | cons s rest ih =>
    intro id tr fl
    by_cases h : s.id = id
    · simp [updateSegment, h]
    · simp [updateSegment, h, ih]

lemma updateSegment_map_ids : ∀ (segs : List Segment) (id : Nat) (tr : List Char) (fl : Bool),
    (updateSegment segs id tr fl).map (fun s => s.id) = segs.map (fun s => s.id) := by
  intro segs
  induction segs with
  | nil => intros; rfl
  | cons s rest ih =>
    intro id tr fl
    by_cases h : s.id = id
    · simp [updateSegment, h]
    · simp [updateSegment, h, ih]

/-! ## Timer system lemmas -/

lemma pending_setHandle (s : TimerSys) (k : TimerKind) (v : Option Nat) :
    (setHandle s k v).pending = s.pending := by
  cases k <;> rfl

lemma nextHandle_setHandle (s : TimerSys) (k : TimerKind) (v : Option Nat) :
    (setHandle s k v).nextHandle = s.nextHandle := by
  cases k <;> rfl

lemma handleOf_setHandle (s : TimerSys) (k : TimerKind) (v : Option Nat) (q : TimerKind) :
    handleOf (setHandle s k v) q = if q = k then v else handleOf s q := by
  cases k <;> cases q <;> simp [setHandle, handleOf]

lemma handleOf_update_pending (s : TimerSys) (x : List (TimerKind × Nat)) (q : TimerKind) :
    handleOf { s with pending := x } q = handleOf s q := by
  cases q <;> rfl

lemma handleOf_update_pending_next (s : TimerSys) (x : List (TimerKind × Nat)) (n : Nat)
    (q : TimerKind) :
    handleOf { s with pending := x, nextHandle := n } q = handleOf s q := by
  cases q <;> rfl

lemma tinv_clear {s : TimerSys} (k : TimerKind) (h : TInv s) :
    TInv (clearTimerKind s k) ∧ ∀ e ∈ (clearTimerKind s k).pending, e.1 ≠ k := by
  unfold clearTimerKind
  cases hk : handleOf s k with
  | none =>
    refine ⟨h, ?_⟩
    intro e he hek
    have h1 := h.1 e he
    rw [hek, hk] at h1
    cases h1
  | some hd =>
    have hmem : ∀ e, e ∈ (s.pending.filter (fun x => x.2 != hd)) →
        e ∈ s.pending ∧ e.2 ≠ hd := by
      intro e he
      have he2 := List.mem_filter.mp he
      exact ⟨he2.1, by simpa using he2.2⟩
    have hnok : ∀ e, e ∈ (s.pending.filter (fun x => x.2 != hd)) → e.1 ≠ k := by
      intro e he hek
      obtain ⟨he1, hne⟩ := hmem e he
      have h1 := h.1 e he1
      rw [hek, hk] at h1
      injection h1 with hh
      exact hne hh.symm
    refine ⟨⟨?_, ?_, ?_⟩, ?_⟩
    · intro e he
      rw [pending_setHandle] at he
      have hek : e.1 ≠ k := hnok e he
      rw [handleOf_setHandle, if_neg hek, handleOf_update_pending]
      exact h.1 e (hmem e he).1
    · intro e he
      rw [pending_setHandle] at he
      rw [nextHandle_setHandle]
      exact h.2.1 e (hmem e he).1
    · rw [pending_setHandle]
      exact h.2.2.sublist ((List.filter_sublist _).map _)
    · intro e he
      rw [pending_setHandle] at he
      exact hnok e he

lemma tinv_arm {s : TimerSys} (k : TimerKind) (h : TInv s) : TInv (armTimerKind s k) := by
  obtain ⟨hc, hnone⟩ := tinv_clear k h
  unfold armTimerKind
  refine ⟨?_, ?_, ?_⟩
  · intro e he
    rw [pending_setHandle] at he
    rcases List.mem_append.mp he with h1 | h2
    · have hek : e.1 ≠ k := hnone e h1
      rw [handleOf_setHandle, if_neg hek, handleOf_update_pending_next]
      exact hc.1 e h1
    · have he2 : e = (k, (clearTimerKind s k).nextHandle) := by simpa using h2
      subst he2
      rw [handleOf_setHandle, if_pos rfl]
  · intro e he
    rw [pending_setHandle] at he
    rw [nextHandle_setHandle]
    rcases List.mem_append.mp he with h1 | h2
    · exact Nat.lt_succ_of_lt (hc.2.1 e h1)
    · have he2 : e = (k, (clearTimerKind s k).nextHandle) := by simpa using h2
      subst he2
      exact Nat.lt_succ_self _
  · rw [pending_setHandle, List.map_append, List.nodup_append]
    refine ⟨hc.2.2, by simp, ?_⟩
    intro x hx1 hx2
    simp only [List.map_cons, List.map_nil, List.mem_singleton] at hx2
    rcases List.mem_map.mp hx1 with ⟨e, he, hxe⟩
    have hlt := hc.2.1 e he
    rw [hxe, hx2] at hlt
    exact absurd hlt (lt_irrefl _)

lemma tinv_fire {s : TimerSys} (hd : Nat) (h : TInv s) :
    TInv { s with pending := s.pending.filter (fun e => e.2 != hd) } := by
  refine ⟨?_, ?_, ?_⟩
  · intro e he
    rw [handleOf_update_pending]
    exact h.1 e (List.mem_filter.mp he).1
  · intro e he
    exact h.2.1 e (List.mem_filter.mp he).1
  · exact h.2.2.sublist ((List.filter_sublist _).map _)

lemma tinv_step {s : TimerSys} (op : TimerOp) (h : TInv s) : TInv (timerStep s op) := by
  cases op with
  | startListeningTimeoutOp => exact tinv_arm _ h
  | clearListeningTimeoutOp => exact (tinv_clear _ h).1
  | scheduleRestartOp => exact tinv_arm _ h
  | clearRestartTimeoutOp => exact (tinv_clear _ h).1
  | resetSpeechPauseTimerOp => exact tinv_arm _ h
  | clearSpeechPauseTimerOp => exact (tinv_clear _ h).1
  | scheduleAutoScrollOp => exact tinv_arm _ h
  | clearScrollScheduleTimerOp => exact (tinv_clear _ h).1
  | timerFiredOp hd => exact tinv_fire hd h

lemma tinv_init : TInv TimerSys.init := by
  refine ⟨?_, ?_, ?_⟩ <;> simp [TimerSys.init]

lemma tinv_run : ∀ (ops : List TimerOp) (s : TimerSys), TInv s → TInv (runTimers s ops) := by
  intro ops
  induction ops with
  | nil => intro s h; exact h
  | cons op rest ih => intro s h; exact ih _ (tinv_step op h)

lemma count_le_one {s : TimerSys} (h : TInv s) (k : TimerKind) :
    pendingOfKind s k ≤ 1 := by
  unfold pendingOfKind
  cases hf : s.pending.filter (fun e => e.1 == k) with
  | nil => simp
  | cons x xs =>
    cases xs with
    | nil => simp
    | cons y ys =>
      exfalso
      have hx : x ∈ s.pending.filter (fun e => e.1 == k) := by rw [hf]; simp
      have hy : y ∈ s.pending.filter (fun e => e.1 == k) := by rw [hf]; simp
      have hx2 := List.mem_filter.mp hx
      have hy2 := List.mem_filter.mp hy
      have hxk : x.1 = k := by simpa using hx2.2
      have hyk : y.1 = k := by simpa using hy2.2
      have h1 := h.1 x hx2.1
      have h2 := h.1 y hy2.1
      rw [hxk] at h1
      rw [hyk] at h2
      rw [h1] at h2
      injection h2 with hxy
      have hnod : ((s.pending.filter (fun e => e.1 == k)).map (fun e => e.2)).Nodup :=
        h.2.2.sublist ((List.filter_sublist _).map _)
      rw [hf, List.map_cons, List.map_cons, List.nodup_cons] at hnod
      exact hnod.1 (by rw [hxy]; simp)

/-! ## Claim theorems -/

lemma runBuf_singleton_fst (b : List Char) (e : BufEvent) :
    (runBuf b [e]).1 = (bufStep b e).1 := rfl

lemma runBuf_forced_strip (evts : List BufEvent) (e : BufEvent)
    (he : e = BufEvent.pauseFire ∨ e = BufEvent.stopFlush) :
    stripWS ((runBuf [] (evts ++ [e])).2.flatten)
      = stripWS (finalInputs evts).flatten := by
  have h1 := runBuf_strip (evts ++ [e]) []
  have hnb : stripWS (runBuf ([] : List Char) (evts ++ [e])).1 = [] := by
    rw [runBuf_append]
    simp only
    rw [runBuf_singleton_fst]
    rcases he with he | he <;> subst he
    · exact flush_newBuffer_strip _
    · exact flush_newBuffer_strip _
  rw [hnb, List.append_nil] at h1
  rw [h1, finalInputs_append]
  rcases he with he | he <;> subst he <;> simp [finalInputs, stripWS_append]

/-- C1, as stated, is false on the code: the buffer pipeline normalises
whitespace, so a literal whitespace character of the input can appear in
no flushed chunk.  With the single finalized fragment `"a  b"` followed by
the pause flush, the input holds two space characters but the dispatched
chunks hold only one: the second space is in no chunk. -/
theorem c1_counterexample :
    (("a  b".toList).count ' ' = 2)
    ∧ (((runBuf [] [BufEvent.finalResult "a  b".toList,
          BufEvent.pauseFire]).2.flatten).count ' ' = 1) := by
  decide

/-- C1 (amended to non-whitespace characters): for every sequence of
buffer events, once a pause-flush fires or a terminal stop forces the
final flush, the concatenation of all dispatched chunks agrees with the
concatenation of all finalized fragment texts on every non-whitespace
character, in order — each such character appears in exactly one flushed
chunk, none is lost across sentence or pause boundaries, and none is
duplicated; whitespace is only normalised (runs collapsed, edges
trimmed). -/
theorem c1_flush_conservation (evts : List BufEvent) :
    stripWS ((runBuf [] (evts ++ [BufEvent.pauseFire])).2.flatten)
        = stripWS (finalInputs evts).flatten
    ∧ stripWS ((runBuf [] (evts ++ [BufEvent.stopFlush])).2.flatten)
        = stripWS (finalInputs evts).flatten :=
  ⟨runBuf_forced_strip evts _ (Or.inl rfl), runBuf_forced_strip evts _ (Or.inr rfl)⟩

theorem c1_witness :
    stripWS ((runBuf [] ([BufEvent.finalResult "Hello there. How are".toList]
        ++ [BufEvent.pauseFire])).2.flatten)
      = stripWS (finalInputs [BufEvent.finalResult "Hello there. How are".toList]).flatten :=
  (c1_flush_conservation [BufEvent.finalResult "Hello there. How are".toList]).1

/-- C2: segment display order equals creation order regardless of
translation completion order: appending A, B, C (ids 1, 2, 3) and
resolving the translate responses in order C, A, B renders the translated
texts in creation order; moreover resolving a translation never changes
any segment's id, original text or position, and appending only adds at
the end with the next monotonic id. -/
theorem c2_segment_order :
    (∀ a b c ta tb tc : List Char,
      rebuildTranslatedDisplay
        (resolveTranslation
          (resolveTranslation
            (resolveTranslation
              (appendSegment (appendSegment (appendSegment Coord.init true a) true b) true c)
              3 tc) 1 ta) 2 tb) []
        = ta ++ '\n' :: (tb ++ '\n' :: tc))
    ∧ (∀ (segs : List Segment) (id : Nat) (tr : List Char) (fl : Bool),
        (updateSegment segs id tr fl).map (fun s => (s.id, s.original))
          = segs.map (fun s => (s.id, s.original)))
    ∧ (∀ (st : Coord) (hasLang : Bool) (x : List Char),
        (appendSegment st hasLang x).segments.map (fun s => s.id)
          = st.segments.map (fun s => s.id) ++ [st.nextSegmentId]) := by
  refine ⟨?_, updateSegment_map_id_orig, ?_⟩
  · intro a b c ta tb tc
    simp [Coord.init, appendSegment, resolveTranslation, updateSegment,
      rebuildTranslatedDisplay, segmentDisplayText, joinNL]
  · intro st hasLang x
    cases hasLang
    · simp [appendSegment, updateSegment_map_ids, List.map_append]
    · simp [appendSegment, List.map_append]

theorem c2_witness :
    rebuildTranslatedDisplay
      (resolveTranslation
        (resolveTranslation
          (resolveTranslation
            (appendSegment (appendSegment (appendSegment Coord.init true ("A".toList))
              true ("B".toList)) true ("C".toList))
            3 ("tc".toList)) 1 ("ta".toList)) 2 ("tb".toList)) []
      = "ta".toList ++ '\n' :: ("tb".toList ++ '\n' :: "tc".toList) :=
  c2_segment_order.1 ("A".toList) ("B".toList) ("C".toList)
    ("ta".toList) ("tb".toList) ("tc".toList)

/-- C3: an engine onEnd while listening is wanted and not manually stopped
schedules a restart with delay `min(base + restartAttempts * step +
(mobile and last error no-speech, then penalty 1000, else 0), cap)`, with
the larger profile 1500/500/5000 on mobile and 300/250/2000 on desktop;
`restartAttempts` grows by exactly one per scheduled restart and resets to
zero on the next successful onStart. -/
theorem c3_restart_backoff (st : Svc)
    (h1 : st.shouldBeListening = true) (h2 : st.isManuallyStopped = false) :
    (recognitionOnEnd st).restartTimeout
        = some (min (restartBase st.isMobileDevice
              + st.restartAttempts * restartStep st.isMobileDevice
              + (if st.isMobileDevice ∧ st.lastNonCriticalError = some "no-speech"
                 then 1000 else 0))
            (restartCap st.isMobileDevice))
      ∧ (recognitionOnEnd st).restartAttempts = st.restartAttempts + 1
      ∧ restartBase true = 1500 ∧ restartStep true = 500 ∧ restartCap true = 5000
      ∧ restartBase false = 300 ∧ restartStep false = 250 ∧ restartCap false = 2000
      ∧ (∀ s : Svc, (recognitionOnStart s).restartAttempts = 0) := by
  refine ⟨?_, ?_, rfl, rfl, rfl, rfl, rfl, rfl, fun s => rfl⟩
  · simp [recognitionOnEnd, h1, h2, scheduleRestart, restartDelay]
  · simp [recognitionOnEnd, h1, h2, scheduleRestart]

theorem c3_witness :
    (recognitionOnEnd
        ⟨true, true, false, false, 2, true, some "no-speech", "en-US", true, none,
          none⟩).restartTimeout = some 3500
    ∧ (recognitionOnEnd
        ⟨true, true, false, false, 2, true, some "no-speech", "en-US", true, none,
          none⟩).restartAttempts = 3 := by
  have h := c3_restart_backoff
    ⟨true, true, false, false, 2, true, some "no-speech", "en-US", true, none, none⟩
    rfl rfl
  refine ⟨?_, h.2.1⟩
  rw [h.1]
  decide

/-- C4: any transcript activity (finalized or interim, non-empty after
trimming) while `shouldBeListening` is true re-arms the single inactivity
timer with the fixed 120000 millisecond (120 second) duration; on expiry
the pipeline marks itself manually stopped, requests an engine stop, and
emits the `timeout` error exactly once. -/
theorem c4_inactivity_timeout :
    (∀ (st : Svc) (results : List SpeechResult),
      (jsTrim (collectTranscripts results).1 ≠ []
        ∨ jsTrim (collectTranscripts results).2 ≠ []) →
      st.shouldBeListening = true →
      (recognitionOnResult st results).1.listeningTimeout = some 120000)
    ∧ listeningDuration = 120000
    ∧ (∀ st : Svc, st.recognitionAvailable = true →
        (listeningTimeoutFire st).1.isManuallyStopped = true
        ∧ (listeningTimeoutFire st).2.1 = ["timeout"]
        ∧ (listeningTimeoutFire st).2.2 = true) := by
  refine ⟨?_, rfl, ?_⟩
  · intro st results hact hsl
    simp only [recognitionOnResult]
    rw [if_pos ⟨hact, hsl⟩]
    rfl
  · intro st h
    refine ⟨?_, ?_, ?_⟩ <;> simp [listeningTimeoutFire, h]

theorem c4_witness :
    (recognitionOnResult
        ⟨true, true, false, true, 0, false, none, "en-US", true, none, none⟩
        [⟨"hi".toList, true⟩]).1.listeningTimeout = some 120000
    ∧ (listeningTimeoutFire
        ⟨true, true, false, true, 0, false, none, "en-US", true, none, none⟩).2.1
      = ["timeout"] := by
  refine ⟨?_, ?_⟩
  · exact c4_inactivity_timeout.1
      ⟨true, true, false, true, 0, false, none, "en-US", true, none, none⟩
      [⟨"hi".toList, true⟩] (Or.inl (by decide)) rfl
  · exact (c4_inactivity_timeout.2.2
      ⟨true, true, false, true, 0, false, none, "en-US", true, none, none⟩ rfl).2.1

/-- C5: a `no-speech` engine error never changes the listening state and
is never emitted on the error stream (and the component error handler
shows no message for it); the critical kinds not-allowed, audio-capture,
service-not-allowed are emitted and stop listening; every other kind is
emitted on the error stream without stopping listening. -/
theorem c5_error_classification (st : Svc) (err : String) :
    ((recognitionOnError st "no-speech").1.listeningFlag = st.listeningFlag
      ∧ (recognitionOnError st "no-speech").1.shouldBeListening = st.shouldBeListening
      ∧ (recognitionOnError st "no-speech").1.isManuallyStopped = st.isManuallyStopped
      ∧ (recognitionOnError st "no-speech").2.1 = []
      ∧ (recognitionOnError st "no-speech").2.2 = false
      ∧ handleErrorAction "no-speech" = (false, false))
    ∧ (err ∈ criticalErrors →
        (recognitionOnError st err).2.1 = [err]
          ∧ (recognitionOnError st err).1.shouldBeListening = false
          ∧ (recognitionOnError st err).1.isManuallyStopped = true)
    ∧ (err ∉ criticalErrors → err ≠ "no-speech" →
        (recognitionOnError st err).2.1 = [err]
          ∧ (recognitionOnError st err).1.listeningFlag = st.listeningFlag
          ∧ (recognitionOnError st err).1.shouldBeListening = st.shouldBeListening
          ∧ (recognitionOnError st err).2.2 = false) := by
  refine ⟨?_, ?_, ?_⟩
  · have he : recognitionOnError st "no-speech"
        = ({ st with lastNonCriticalError := some "no-speech" }, [], false) := by
      simp [recognitionOnError]
    rw [he]
    exact ⟨rfl, rfl, rfl, rfl, rfl, by decide⟩
  · intro hmem
    have hne : err ≠ "no-speech" := by
      intro h0
      subst h0
      exact absurd hmem (by decide)
    refine ⟨?_, ?_, ?_⟩ <;>
      simp [recognitionOnError, hne, hmem, stopListening, clearListeningTimeout,
        clearRestartTimeout]
  · intro hnm hne
    refine ⟨?_, ?_, ?_, ?_⟩ <;> simp [recognitionOnError, hne, hnm]

theorem c5_witness :
    ("network" ∉ criticalErrors)
    ∧ (recognitionOnError
        ⟨true, true, false, true, 0, false, none, "en-US", true, none, none⟩
        "network").2.1 = ["network"]
    ∧ (recognitionOnError
        ⟨true, true, false, true, 0, false, none, "en-US", true, none, none⟩
        "not-allowed").1.shouldBeListening = false := by
  refine ⟨by decide, ?_, ?_⟩
  · exact ((c5_error_classification
      ⟨true, true, false, true, 0, false, none, "en-US", true, none, none⟩
      "network").2.2 (by decide) (by decide)).1
  · exact ((c5_error_classification
      ⟨true, true, false, true, 0, false, none, "en-US", true, none, none⟩
      "not-allowed").2.1 (by decide)).2.1

/-- C6, as stated, is false on the code: `startListening` sets
`shouldBeListening = true` before the permission request, so the flag is
true even when permission is refused — it is not set only on success.
Concretely, starting from the initial state (flag false) with permission
refused, the call emits not-allowed yet leaves `shouldBeListening` at
true. -/
theorem c6_counterexample :
    initSvc.shouldBeListening = false
    ∧ (startListening initSvc false "fr-FR").2.1 = ["not-allowed"]
    ∧ (startListening initSvc false "fr-FR").1.shouldBeListening = true := by
  decide

/-- C6 (amended): `startListening` sets `shouldBeListening = true`
unconditionally before the permission request.  On refusal it emits a
not-allowed error without throwing (the model is a total function), does
not invoke the engine start, does not arm the inactivity timer, and leaves
`isManuallyStopped` and the engine language untouched.  When permission is
granted it additionally sets `isManuallyStopped = false`, configures the
engine language, invokes the guarded start (which starts the engine unless
it is already recognizing), and arms the 120 second inactivity timer. -/
theorem c6_start_listening (st : Svc) (language : String)
    (h : st.recognitionAvailable = true) :
    ((startListening st false language).1.shouldBeListening = true
      ∧ (startListening st false language).2.1 = ["not-allowed"]
      ∧ (startListening st false language).2.2.1 = false
      ∧ (startListening st false language).2.2.2 = false
      ∧ (startListening st false language).1.listeningTimeout = st.listeningTimeout
      ∧ (startListening st false language).1.isManuallyStopped = st.isManuallyStopped
      ∧ (startListening st false language).1.lang = st.lang)
    ∧ ((startListening st true language).1.shouldBeListening = true
      ∧ (startListening st true language).1.isManuallyStopped = false
      ∧ (startListening st true language).1.lang = language
      ∧ (startListening st true language).1.listeningTimeout = some 120000
      ∧ (startListening st true language).2.1 = []
      ∧ (startListening st true language).2.2.2 = true
      ∧ (st.isRecognizing = false → (startListening st true language).2.2.1 = true)) := by
  constructor
  · refine ⟨?_, ?_, ?_, ?_, ?_, ?_, ?_⟩ <;> simp [startListening, h]
  · by_cases hr : st.isRecognizing <;>
      refine ⟨?_, ?_, ?_, ?_, ?_, ?_, ?_⟩ <;>
        simp [startListening, h, startRecognitionSafely, startListeningTimeout,
          listeningDuration, hr]

theorem c6_witness :
    (startListening initSvc true "de-DE").1.isManuallyStopped = false
    ∧ (startListening initSvc true "de-DE").1.listeningTimeout = some 120000
    ∧ (startListening initSvc false "de-DE").2.1 = ["not-allowed"] := by
  have h := c6_start_listening initSvc "de-DE" rfl
  exact ⟨h.2.2.1, h.2.2.2.2.1, h.1.2.1⟩

/-- C7: with buffered text `Hello there. How are`, a forced flush puts the
completed sentence `Hello there.` plus the remainder `How are` into the
chunks to translate and clears the buffer entirely; a non-forced flush
puts only `Hello there.` into the chunks to translate and the buffer
retains `How are` as the interim remainder. -/
theorem c7_flush_example :
    (flushSpeechBuffer ("Hello there. How are".toList) true).toTranslate
        = ["Hello there.".toList, "How are".toList]
    ∧ (flushSpeechBuffer ("Hello there. How are".toList) true).newBuffer = []
    ∧ (flushSpeechBuffer ("Hello there. How are".toList) false).toTranslate
        = ["Hello there.".toList]
    ∧ (flushSpeechBuffer ("Hello there. How are".toList) false).newBuffer
        = "How are".toList := by
  decide

set_option maxRecDepth 10000 in
/-- C8: chunk packing greedily joins chunks with a single space up to 450
characters — two trimmed chunks within the budget become one combined
chunk exactly when their joined length is at most 450 and stay two chunks
otherwise; a single chunk longer than 450 is hard-split at the last word
boundary of the first 450 characters when that boundary lies past 60
percent of the budget (within the last 40 percent), else exactly at the
450 character limit, as the three concrete splits show. -/
theorem c8_chunk_packing :
    (∀ a b : List Char, jsTrim a = a → jsTrim b = b → a ≠ [] → b ≠ [] →
      a.length ≤ 450 → b.length ≤ 450 →
      packIntoChunks [a, b] 450
        = if a.length + 1 + b.length ≤ 450 then [a ++ ' ' :: b] else [a, b])
    ∧ chunkText (List.replicate 300 'a' ++ ' ' :: List.replicate 300 'b') 450
        = [List.replicate 300 'a', List.replicate 300 'b']
    ∧ chunkText (List.replicate 500 'a') 450
        = [List.replicate 450 'a', List.replicate 50 'a']
    ∧ chunkText (List.replicate 10 'a' ++ ' ' :: List.replicate 460 'b') 450
        = [List.replicate 10 'a' ++ ' ' :: List.replicate 439 'b',
           List.replicate 21 'b'] := by
  refine ⟨fun a b ha hb hna hnb hla hlb => pack_pair ha hb hna hnb hla hlb, ?_, ?_, ?_⟩
  · decide
  · decide
  · decide

theorem c8_witness :
    packIntoChunks ["Hi.".toList, "Yo.".toList] 450 = ["Hi. Yo.".toList] := by
  have h := c8_chunk_packing.1 ("Hi.".toList) ("Yo.".toList)
    (by decide) (by decide) (by decide) (by decide) (by decide) (by decide)
  rw [h]
  decide

/-- C9: for each of the four timer kinds, at most one timer handle is
outstanding at any reachable state: every source operation that arms a
timer first cancels the stored handle of that kind, so running any
sequence of timer operations from the initial state leaves at most one
pending timer per kind. -/
theorem c9_single_timer_per_kind (ops : List TimerOp) (k : TimerKind) :
    pendingOfKind (runTimers TimerSys.init ops) k ≤ 1 :=
  count_le_one (tinv_run ops TimerSys.init tinv_init) k

theorem c9_witness :
    pendingOfKind (runTimers TimerSys.init
        [TimerOp.scheduleRestartOp, TimerOp.scheduleRestartOp]) TimerKind.restart ≤ 1 :=
  c9_single_timer_per_kind [TimerOp.scheduleRestartOp, TimerOp.scheduleRestartOp]
    TimerKind.restart

/-- C10: sentence extraction is sound and lossless: every completed
sentence is non-empty and ends in one of the terminators, the remainder
holds no terminator, and the concatenation of the completed sentences
followed by the remainder agrees with the input on every non-whitespace
character, in order. -/
theorem c10_extract_sound (t : List Char) :
    (∀ s ∈ (extractCompletedSentences t).completed,
        ∃ z c, s = z ++ [c] ∧ isSentenceTerminator c = true)
    ∧ (∀ x ∈ (extractCompletedSentences t).remainder, isSentenceTerminator x = false)
    ∧ stripWS ((extractCompletedSentences t).completed.flatten
        ++ (extractCompletedSentences t).remainder) = stripWS t :=
  ⟨extract_completed_shape t, extract_remainder_no_term t, extract_strip t⟩

theorem c10_witness :
    ("Hi.".toList ∈ (extractCompletedSentences ("Hi. Yo".toList)).completed)
    ∧ (∃ z c, "Hi.".toList = z ++ [c] ∧ isSentenceTerminator c = true) :=
  ⟨by decide, (c10_extract_sound ("Hi. Yo".toList)).1 ("Hi.".toList) (by decide)⟩

end SpeechPipeline
